import Mathlib

/-!
Shallow embedding of src/scripts/fetch_downloads.py (armoriq/aiq-traction-tracker).

Modelling conventions:
- Calendar days are integers (days since an epoch); the ISO date strings of the
  Python code correspond bijectively to these integers, so keys use Int dates.
- Network I/O is abstracted into a Responses structure: each field holds the
  response the corresponding requests.get call would produce (Except.error for a
  transport error / raised exception, Except.ok for a parsed JSON body).  For the
  GitHub paginated listing, the per-endpoint outcome is Option (List Repo) with
  none standing for the 404 result of fetch_github_paginated; the page loop
  itself is embedded separately (fetchGithubPaginated) with explicit fuel.
  For Discord, the per-channel message pagination loop is abstracted to the list
  of message ids that the loop yields for that channel.
- The CSV store is a List Row at the ingestion level; load_existing_entries is
  additionally embedded at the raw-file level (loadExistingEntries) to settle
  claims about corruption handling, with a CSV file modelled as the list of its
  parsed rows (each row a list of cell strings) and csv.DictReader field access
  modelled after its zip/restval semantics.
-/

/-- A dataset key: (date, package, source), mirroring the tuples stored in the
set built by load_existing_entries and tested by main. -/
abbrev DKey := Int × String × String

/-- One CSV record, mirroring the dicts appended to new_rows in main
(fields date, package, source, downloads). -/
structure Row where
  date : Int
  package : String
  source : String
  downloads : Int
deriving DecidableEq

/-- The (date, package, source) key of a row. -/
def rowKey (r : Row) : DKey := (r.date, r.package, r.source)

/-- Keys of all rows of a store, in order (the in-memory existing-entries set of
a store is exactly this list viewed as a set). -/
def storeKeys (store : List Row) : List DKey := store.map rowKey

/-- Embedding of append_rows: the CSV file grows by the given rows at the end
(header creation does not change the record content). -/
def appendRows (store rows : List Row) : List Row := store ++ rows

/-- One entry of the pypistats.org overall response (fields category, date,
downloads). -/
structure PypiEntry where
  category : String
  date : Int
  downloads : Int
deriving DecidableEq

/-- One entry of the npm registry range response (fields day, downloads). -/
structure NpmEntry where
  day : Int
  downloads : Int
deriving DecidableEq

/-- A GitHub repository object, with the fields the script reads
(full_name, owner.login, stargazers_count, forks_count, open_issues_count);
absent full_name / owner.login are modelled as the empty string, matching the
falsy / default-"" handling in the code. -/
structure Repo where
  fullName : String
  ownerLogin : String
  stars : Int
  forks : Int
  openIssues : Int
deriving DecidableEq

/-- Discord guild object fields read by fetch_discord_stats: name (guild.get
with the guild id as default) and approximate_member_count (default 0). -/
structure GuildInfo where
  nameOpt : Option String
  memberCount : Option Int
deriving DecidableEq

/-- A Discord channel object: its type tag and its snowflake id. -/
structure Channel where
  type : Int
  id : Int
deriving DecidableEq

/-- Outcome of one GitHub list-endpoint page request as seen by
fetch_github_paginated: a 404, a non-list JSON body, or a list of items. -/
inductive GhPage where
  | notFound
  | nonList
  | items (batch : List Repo)
deriving DecidableEq

/-- All upstream responses of one run, fixed up front; fields correspond
one-to-one to the requests.get calls of the script. -/
structure Responses where
  pypi : String → Except String (List PypiEntry)
  npm : String → Int × Int → Except String (List NpmEntry)
  viewerLogin : Option String
  ghUserRepos : Option (List Repo)
  ghOrgRepos : String → Option (List Repo)
  ghUserOwnedRepos : String → Option (List Repo)
  ghRepoByName : String → Except String Repo
  discordToken : Bool
  discordGuild : String → Except Unit GuildInfo
  discordChannels : String → Except Unit (List Channel)
  discordMessages : String → Int → List Int

/-- The configured targets, after config parsing (pypi list, npm list, GitHub
owners and explicit repos as split by parse_github_config, discord guild ids as
strings). -/
structure Config where
  pypi : List String
  npm : List String
  ghOwners : List String
  ghRepos : List String
  discord : List String

/-- Embedding of fetch_pypi_downloads: on a transport error return [], else
keep the with_mirrors entries as (date, downloads) pairs. -/
def fetchPypiDownloads (resp : Except String (List PypiEntry)) : List (Int × Int) :=
  match resp with
  | .error _ => []
  | .ok data => (data.filter fun e => e.category = "with_mirrors").map fun e => (e.date, e.downloads)

/-- The date range fetch_npm_downloads requests: end is yesterday, start is 364
days before end (a 365-day window). -/
def npmRange (today : Int) : Int × Int := (today - 1 - 364, today - 1)

/-- Embedding of fetch_npm_downloads: request the 365-day range ending
yesterday; on a transport error return [], else return every entry of the
response as a (day, downloads) pair. -/
def fetchNpmDownloads (r : Responses) (today : Int) (pkg : String) : List (Int × Int) :=
  match r.npm pkg (npmRange today) with
  | .error _ => []
  | .ok ds => ds.map fun e => (e.day, e.downloads)

/-- Lower-casing of an identifier, modelling Python str.lower for the ASCII
identifiers involved. -/
def strLower (s : String) : String := s.toLower

/-- Embedding of the while-loop of fetch_github_paginated, with explicit fuel;
the outer none means the loop was not observed to terminate within the fuel,
some none is the 404 outcome (return None), some (some items) a normal return. -/
def fetchGithubPaginatedAux (pages : Nat → GhPage) : Nat → Nat → List Repo → Option (Option (List Repo))
  | 0, _, _ => none
  | fuel + 1, page, acc =>
    match pages page with
    | .notFound => some none
    | .nonList => some (some acc)
    | .items batch =>
      if batch.length < 100 then some (some (acc ++ batch))
      else fetchGithubPaginatedAux pages fuel (page + 1) (acc ++ batch)

/-- Embedding of fetch_github_paginated: page numbering starts at 1 with an
empty accumulator. -/
def fetchGithubPaginated (pages : Nat → GhPage) (fuel : Nat) : Option (Option (List Repo)) :=
  fetchGithubPaginatedAux pages fuel 1 []

/-- The org-repos-then-user-repos fallback chain at the end of
fetch_repos_for_owner, over the outcomes of the two paginated lookups
(none = the lookup returned 404). -/
def orgUserFallback (orgRes usersRes : Option (List Repo)) : Except String (List Repo) :=
  match orgRes with
  | some l => .ok l
  | none =>
    match usersRes with
    | some l => .ok l
    | none => .error "Owner not found as a GitHub user or org"

/-- Embedding of fetch_repos_for_owner over the outcomes of its three
fetch_github_paginated calls (/user/repos, /orgs/{owner}/repos,
/users/{owner}/repos); none = that lookup returned 404. -/
def fetchReposForOwner (owner : String) (viewer : Option String)
    (userRes orgRes usersRes : Option (List Repo)) : Except String (List Repo) :=
  match viewer with
  | some v =>
    if strLower v = strLower owner then
      match userRes with
      | some repos => .ok (repos.filter fun repo => strLower repo.ownerLogin = strLower owner)
      | none => orgUserFallback orgRes usersRes
    else orgUserFallback orgRes usersRes
  | none => orgUserFallback orgRes usersRes

/-- Python-dict insertion into an association list: replace in place when the
key exists, else append. -/
def dictInsert (d : List (String × Repo)) (k : String) (v : Repo) : List (String × Repo) :=
  if d.any fun p => p.1 = k then d.map fun p => if p.1 = k then (k, v) else p
  else d ++ [(k, v)]

/-- Association list sorted by key, modelling sorted(repos_by_name.items()). -/
def sortByName (d : List (String × Repo)) : List (String × Repo) :=
  d.mergeSort fun a b => decide (a.1 ≤ b.1)

/-- Embedding of fetch_github_repo_stats: list repos per owner (errors caught
per owner), add explicit repos not already discovered (errors caught per repo),
then emit the three snapshot rows per repo, sorted by full name. -/
def fetchGithubRepoStats (r : Responses) (owners explicitRepos : List String) (today : Int) : List Row :=
  if owners = [] ∧ explicitRepos = [] then []
  else
    let d1 := owners.foldl
      (fun d owner =>
        match fetchReposForOwner owner r.viewerLogin r.ghUserRepos
            (r.ghOrgRepos owner) (r.ghUserOwnedRepos owner) with
        | .error _ => d
        | .ok repos =>
          repos.foldl
            (fun d2 repo => if repo.fullName = "" then d2 else dictInsert d2 repo.fullName repo) d)
      []
    let d2 := explicitRepos.foldl
      (fun d fn =>
        if d.any fun p => p.1 = fn then d
        else
          match r.ghRepoByName fn with
          | .error _ => d
          | .ok repo => dictInsert d fn repo)
      d1
    (sortByName d2).flatMap fun p =>
      [⟨today, p.1, "github_stars", p.2.stars⟩,
       ⟨today, p.1, "github_forks", p.2.forks⟩,
       ⟨today, p.1, "github_open_issues", p.2.openIssues⟩]

/-- The Discord snowflake epoch in milliseconds. -/
def DISCORD_EPOCH : Int := 1420070400000

/-- Embedding of snowflake_from_datetime at day granularity: a day d is
midnight, whose timestamp is d * 86400 seconds; shifting left by 22 bits is
multiplication by 2 ^ 22 = 4194304. -/
def snowflakeFromDate (d : Int) : Int := (d * 86400000 - DISCORD_EPOCH) * 4194304

/-- Embedding of date_from_snowflake: shift right 22 bits (floor division),
add the epoch, convert milliseconds to a day (floor divisions, as Python's
floor semantics on timestamps). -/
def dateFromSnowflake (id : Int) : Int :=
  ((id.fdiv 4194304 + DISCORD_EPOCH).fdiv 1000).fdiv 86400

/-- The days-needed computation of fetch_discord_stats: the last backfillDays
calendar days before today whose (day, name, discord_messages) key is not yet
recorded.  The loop's early break at day >= today is kept as a skip, which is
equivalent because the day grows with the loop index. -/
def daysNeeded (existing : List DKey) (name : String) (today : Int) (backfillDays : Nat) : List Int :=
  (List.range backfillDays).filterMap fun (i : Nat) =>
    let day := today - (backfillDays : Int) + (i : Int)
    if today ≤ day then none
    else if (day, name, "discord_messages") ∈ existing then none
    else some day

/-- Increment of messages_by_date[d] for a defaultdict(int) modelled as an
association list (insertion order preserved). -/
def bumpCount (m : List (Int × Int)) (d : Int) : List (Int × Int) :=
  if m.any fun p => p.1 = d then m.map fun p => if p.1 = d then (p.1, p.2 + 1) else p
  else m ++ [(d, 1)]

/-- The body of the message loop of fetch_discord_stats: bucket one fetched
message id into its calendar day and count it when that day is needed. -/
def bucketMsg (needed : List Int) (acc : List (Int × Int)) (mid : Int) : List (Int × Int) :=
  if dateFromSnowflake mid ∈ needed then bumpCount acc (dateFromSnowflake mid) else acc

/-- The body of the channel loop of fetch_discord_stats: process every message
the pagination loop yields for a text channel (types 0 and 5); other channel
types are skipped. -/
def bucketChannel (needed : List Int) (msgs : Int → List Int) (acc : List (Int × Int))
    (ch : Channel) : List (Int × Int) :=
  if ch.type = 0 ∨ ch.type = 5 then (msgs ch.id).foldl (bucketMsg needed) acc else acc

/-- The per-channel counting loops of fetch_discord_stats.  msgs ch gives the
message ids the pagination loop yields for channel ch. -/
def countMessages (needed : List Int) (msgs : Int → List Int) (channels : List Channel) : List (Int × Int) :=
  channels.foldl (bucketChannel needed msgs) []

/-- The fill-in-zeros loop of fetch_discord_stats: every needed day that
received no count is recorded with value 0. -/
def fillZeros (needed : List Int) (counts : List (Int × Int)) : List (Int × Int) :=
  needed.foldl (fun acc d => if acc.any fun p => p.1 = d then acc else acc ++ [(d, 0)]) counts

/-- The value fetch_discord_stats returns (None is Option.none). -/
structure DiscordResult where
  name : String
  members : Int
  messagesByDate : Option (List (Int × Int))
deriving DecidableEq

/-- The messages_by_date part of fetch_discord_stats: with nothing to backfill
an empty map; on a failed channels fetch None; otherwise the per-day counts of
the fetched messages with zeros filled in for event-free needed days. -/
def discordMessagesByDate (r : Responses) (guildId : String) (existing : List DKey)
    (today : Int) (backfillDays : Nat) (name : String) : Option (List (Int × Int)) :=
  let needed := daysNeeded existing name today backfillDays
  if needed = [] then some []
  else
    match r.discordChannels guildId with
    | .error _ => none
    | .ok channels =>
      some (fillZeros needed (countMessages needed (r.discordMessages guildId) channels))

/-- Embedding of fetch_discord_stats: without a bot token or on a failed guild
fetch return none; otherwise the guild name (guild id as default), the member
count and the messages_by_date map. -/
def fetchDiscordStats (r : Responses) (guildId : String) (existing : List DKey)
    (today : Int) (backfillDays : Nat) : Option DiscordResult :=
  if r.discordToken = false then none
  else
    match r.discordGuild guildId with
    | .error _ => none
    | .ok gi =>
      let name := gi.nameOpt.getD guildId
      some ⟨name, gi.memberCount.getD 0,
        discordMessagesByDate r guildId existing today backfillDays name⟩

/-- Sorting of messages_by_date.items() by day. -/
def sortByDay (m : List (Int × Int)) : List (Int × Int) :=
  m.mergeSort fun a b => decide (a.1 ≤ b.1)

/-- The pypi loop of main: fetch each package and keep the records whose key is
not in the existing set. -/
def processPypi (r : Responses) (existing : List DKey) (pkgs : List String) : List Row :=
  pkgs.flatMap fun pkg =>
    (fetchPypiDownloads (r.pypi pkg)).filterMap fun e =>
      if ((e.1, pkg, "pypi") : DKey) ∈ existing then none
      else some ⟨e.1, pkg, "pypi", e.2⟩

/-- The npm loop of main. -/
def processNpm (r : Responses) (existing : List DKey) (today : Int) (pkgs : List String) : List Row :=
  pkgs.flatMap fun pkg =>
    (fetchNpmDownloads r today pkg).filterMap fun e =>
      if ((e.1, pkg, "npm") : DKey) ∈ existing then none
      else some ⟨e.1, pkg, "npm", e.2⟩

/-- The GitHub block of main: keep the fetched snapshot rows whose key is not
in the existing set. -/
def processGithub (r : Responses) (existing : List DKey) (owners explicitRepos : List String)
    (today : Int) : List Row :=
  (fetchGithubRepoStats r owners explicitRepos today).filter fun row =>
    decide (rowKey row ∉ existing)

/-- The per-guild Discord block of main: member-count snapshot row if its key
is new, then one row per (sorted) message day whose key is new. -/
def processDiscordGuild (r : Responses) (existing : List DKey) (today : Int) (g : String) : List Row :=
  match fetchDiscordStats r g existing today 90 with
  | none => []
  | some res =>
    (if ((today, res.name, "discord_members") : DKey) ∈ existing then []
     else [⟨today, res.name, "discord_members", res.members⟩]) ++
    (match res.messagesByDate with
     | none => []
     | some m =>
       (sortByDay m).filterMap fun p =>
         if ((p.1, res.name, "discord_messages") : DKey) ∈ existing then none
         else some ⟨p.1, res.name, "discord_messages", p.2⟩)

/-- The Discord loop of main. -/
def processDiscord (r : Responses) (existing : List DKey) (today : Int) (guilds : List String) : List Row :=
  guilds.flatMap fun g => processDiscordGuild r existing today g

/-- Embedding of main: the new_rows list a run produces, given the configured
targets, the upstream responses, today's date and the loaded existing-key set
(in the order the four blocks of main append them). -/
def mainRun (cfg : Config) (r : Responses) (today : Int) (existing : List DKey) : List Row :=
  processPypi r existing cfg.pypi ++
  processNpm r existing today cfg.npm ++
  processGithub r existing cfg.ghOwners cfg.ghRepos today ++
  processDiscord r existing today cfg.discord

/-- The records the pypi block fetches, before deduplication. -/
def fetchedPypiRows (r : Responses) (pkgs : List String) : List Row :=
  pkgs.flatMap fun pkg =>
    (fetchPypiDownloads (r.pypi pkg)).map fun e => (⟨e.1, pkg, "pypi", e.2⟩ : Row)

/-- The records the npm block fetches, before deduplication. -/
def fetchedNpmRows (r : Responses) (today : Int) (pkgs : List String) : List Row :=
  pkgs.flatMap fun pkg =>
    (fetchNpmDownloads r today pkg).map fun e => (⟨e.1, pkg, "npm", e.2⟩ : Row)

/-- The records the Discord block fetches for one guild, before deduplication
(the member snapshot row, then the per-day message rows). -/
def fetchedDiscordGuild (r : Responses) (existing : List DKey) (today : Int) (g : String) : List Row :=
  match fetchDiscordStats r g existing today 90 with
  | none => []
  | some res =>
    (⟨today, res.name, "discord_members", res.members⟩ : Row) ::
    (match res.messagesByDate with
     | none => []
     | some m =>
       (sortByDay m).map fun p => (⟨p.1, res.name, "discord_messages", p.2⟩ : Row))

/-- All records a run fetches, before deduplication against the existing set:
the same four blocks of main with every key test removed (the Discord block
still depends on the existing set, because days_needed does). -/
def fetchedRows (cfg : Config) (r : Responses) (today : Int) (existing : List DKey) : List Row :=
  fetchedPypiRows r cfg.pypi ++
  fetchedNpmRows r today cfg.npm ++
  fetchGithubRepoStats r cfg.ghOwners cfg.ghRepos today ++
  cfg.discord.flatMap fun g => fetchedDiscordGuild r existing today g

/-- The store contents after one run: the accepted rows are appended. -/
def runStore (cfg : Config) (r : Responses) (today : Int) (store : List Row) : List Row :=
  appendRows store (mainRun cfg r today (storeKeys store))

/-- A sequence of runs, each loading the keys of the store the previous runs
left. -/
def runSeq : List (Config × Responses × Int) → List Row → List Row
  | [], store => store
  | run :: rest, store => runSeq rest (runStore run.1 run.2.1 run.2.2 store)

/-- Position of a field name in the DictReader header (first occurrence). -/
def fieldIndex (header : List String) (field : String) : Option Nat :=
  match header with
  | [] => none
  | h :: t => if h = field then some 0 else (fieldIndex t field).map (· + 1)

/-- Field access row[field] of a csv.DictReader row: KeyError (the error case)
when the field is not among the header names, otherwise the cell at the field's
position, or none (restval) when the row is shorter than the header. -/
def dictGet (header row : List String) (field : String) : Except Unit (Option String) :=
  match fieldIndex header field with
  | none => .error ()
  | some i => .ok (row.get? i)

/-- A loaded entry: the (date, package, source) cells of one CSV row, each
possibly the DictReader restval None. -/
abbrev CsvTriple := Option String × Option String × Option String

/-- Processing of one CSV data row by load_existing_entries: blank rows are
skipped by DictReader; otherwise the three key cells are looked up in order and
a KeyError propagates. -/
def loadRow (header : List String) (entries : List CsvTriple) (row : List String) :
    Except Unit (List CsvTriple) :=
  if row = [] then .ok entries
  else
    match dictGet header row "date" with
    | .error u => .error u
    | .ok d =>
      match dictGet header row "package" with
      | .error u => .error u
      | .ok p =>
        match dictGet header row "source" with
        | .error u => .error u
        | .ok s => .ok (entries ++ [(d, p, s)])

/-- The row loop of load_existing_entries: process rows in order, stopping at
the first raised error. -/
def loadRows (header : List String) (acc : List CsvTriple) :
    List (List String) → Except Unit (List CsvTriple)
  | [] => .ok acc
  | row :: rest =>
    match loadRow header acc row with
    | .error u => .error u
    | .ok acc2 => loadRows header acc2 rest

/-- Embedding of load_existing_entries over the raw CSV file, modelled as the
list of its parsed rows (none = the file does not exist): a missing or empty
file yields the empty set; otherwise the first row is the DictReader header and
each further non-blank row contributes its (date, package, source) cells, where
a failing field lookup propagates as the error. -/
def loadExistingEntries (file : Option (List (List String))) :
    Except Unit (List CsvTriple) :=
  match file with
  | none => .ok []
  | some [] => .ok []
  | some (header :: rows) => loadRows header [] rows

/-! Helper lemmas about the merge step of main. -/

theorem filterMap_if_mem {α : Type} (l : List α) (f : α → Row) (ex : List DKey)
    (k : α → DKey) (hk : ∀ a, k a = rowKey (f a)) :
    (l.filterMap fun a => if k a ∈ ex then none else some (f a))
      = (l.map f).filter fun row => decide (rowKey row ∉ ex) := by
  induction l with
  | nil => rfl
  | cons a t ih =>
    simp only [List.filterMap_cons, List.map_cons, List.filter_cons, hk a]
    by_cases h : rowKey (f a) ∈ ex
    · simp [h, ih]
    · simp [h, ih]

theorem processPypi_eq (r : Responses) (ex : List DKey) (pkgs : List String) :
    processPypi r ex pkgs =
      (fetchedPypiRows r pkgs).filter fun row => decide (rowKey row ∉ ex) := by
  unfold processPypi fetchedPypiRows
  rw [List.filter_flatMap]
  apply List.flatMap_congr
  intro pkg _
  exact filterMap_if_mem _ _ _ _ fun a => rfl

theorem processNpm_eq (r : Responses) (ex : List DKey) (today : Int) (pkgs : List String) :
    processNpm r ex today pkgs =
      (fetchedNpmRows r today pkgs).filter fun row => decide (rowKey row ∉ ex) := by
  unfold processNpm fetchedNpmRows
  rw [List.filter_flatMap]
  apply List.flatMap_congr
  intro pkg _
  exact filterMap_if_mem _ _ _ _ fun a => rfl

theorem processDiscordGuild_eq (r : Responses) (ex : List DKey) (today : Int) (g : String) :
    processDiscordGuild r ex today g =
      (fetchedDiscordGuild r ex today g).filter fun row => decide (rowKey row ∉ ex) := by
  unfold processDiscordGuild fetchedDiscordGuild
  cases h : fetchDiscordStats r g ex today 90 with
  | none => rfl
  | some res =>
    have hmsg :
        (match res.messagesByDate with
         | none => ([] : List Row)
         | some m =>
           (sortByDay m).filterMap fun (p : Int × Int) =>
             if ((p.1, res.name, "discord_messages") : DKey) ∈ ex then none
             else some ⟨p.1, res.name, "discord_messages", p.2⟩)
          = List.filter (fun row => decide (rowKey row ∉ ex))
              (match res.messagesByDate with
               | none => ([] : List Row)
               | some m =>
                 (sortByDay m).map fun (p : Int × Int) =>
                   (⟨p.1, res.name, "discord_messages", p.2⟩ : Row)) := by
      cases res.messagesByDate with
      | none => rfl
      | some m => exact filterMap_if_mem _ _ _ _ fun a => rfl
    by_cases hm : ((today, res.name, "discord_members") : DKey) ∈ ex
    · simp only [List.filter_cons]
      rw [hmsg]
      simp [hm, rowKey]
    · simp only [List.filter_cons]
      rw [hmsg]
      simp [hm, rowKey]

theorem mainRun_eq_filter (cfg : Config) (r : Responses) (today : Int) (ex : List DKey) :
    mainRun cfg r today ex =
      (fetchedRows cfg r today ex).filter fun row => decide (rowKey row ∉ ex) := by
  unfold mainRun fetchedRows
  rw [List.filter_append, List.filter_append, List.filter_append]
  rw [processPypi_eq, processNpm_eq]
  have h3 : processGithub r ex cfg.ghOwners cfg.ghRepos today
      = (fetchGithubRepoStats r cfg.ghOwners cfg.ghRepos today).filter
          fun row => decide (rowKey row ∉ ex) := rfl
  have h4 : processDiscord r ex today cfg.discord
      = (cfg.discord.flatMap fun g => fetchedDiscordGuild r ex today g).filter
          fun row => decide (rowKey row ∉ ex) := by
    unfold processDiscord
    rw [List.filter_flatMap]
    exact List.flatMap_congr fun gid _ => processDiscordGuild_eq r ex today gid
  rw [h3, h4]

theorem mem_mainRun {cfg : Config} {r : Responses} {today : Int} {ex : List DKey} {row : Row} :
    row ∈ mainRun cfg r today ex ↔ row ∈ fetchedRows cfg r today ex ∧ rowKey row ∉ ex := by
  rw [mainRun_eq_filter, List.mem_filter]
  simp

/-! Claims about the GitHub listing fallback and pagination. -/

/-- The list of paginated lookups fetch_repos_for_owner attempts, in order:
the authenticated /user/repos lookup only when the token owner matches, then
the org lookup, then the user lookup. -/
def lookupsTried (owner : String) (viewer : Option String)
    (userRes orgRes usersRes : Option (List Repo)) : List (Option (List Repo)) :=
  (match viewer with
   | some v => if strLower v = strLower owner then [userRes] else []
   | none => []) ++ [orgRes, usersRes]

/-- C7: listing repositories for an owner never hard-fails on a single
404-equivalent lookup outcome: the adapter raises its hard failure exactly when
every lookup it tries returns the not-found sentinel, so it succeeds whenever
some fallback succeeds. -/
theorem fetchReposForOwner_error_iff_all_notFound (owner : String) (viewer : Option String)
    (userRes orgRes usersRes : Option (List Repo)) :
    (∃ e, fetchReposForOwner owner viewer userRes orgRes usersRes = .error e) ↔
      ∀ res ∈ lookupsTried owner viewer userRes orgRes usersRes, res = none := by
  cases viewer with
  | none =>
    cases orgRes <;> cases usersRes <;>
      simp [fetchReposForOwner, orgUserFallback, lookupsTried]
  | some v =>
    by_cases hv : strLower v = strLower owner
    · cases userRes <;> cases orgRes <;> cases usersRes <;>
        simp [fetchReposForOwner, orgUserFallback, lookupsTried, hv]
    · cases orgRes <;> cases usersRes <;>
        simp [fetchReposForOwner, orgUserFallback, lookupsTried, hv]

/-- C8: the cursor translator is a pure pair of functions; the date-to-snowflake
direction is monotone, and converting the snowflake of a day back yields that
day. -/
theorem snowflakeFromDate_monotone_and_roundtrip (d1 d2 : Int) :
    (d1 ≤ d2 → snowflakeFromDate d1 ≤ snowflakeFromDate d2) ∧
      dateFromSnowflake (snowflakeFromDate d1) = d1 := by
  constructor
  · intro h
    unfold snowflakeFromDate
    have h1 : d1 * 86400000 ≤ d2 * 86400000 :=
      mul_le_mul_of_nonneg_right h (by norm_num)
    have h2 : d1 * 86400000 - DISCORD_EPOCH ≤ d2 * 86400000 - DISCORD_EPOCH := by omega
    exact mul_le_mul_of_nonneg_right h2 (by norm_num)
  · unfold dateFromSnowflake snowflakeFromDate
    rw [Int.mul_fdiv_cancel _ (by norm_num)]
    have h3 : d1 * 86400000 - DISCORD_EPOCH + DISCORD_EPOCH = d1 * 86400 * 1000 := by
      ring
    rw [h3, Int.mul_fdiv_cancel _ (by norm_num), Int.mul_fdiv_cancel _ (by norm_num)]

/-- Witness for C8 at days 0 and 5. -/
theorem snowflakeFromDate_monotone_witness :
    (0 : Int) ≤ 5 ∧
      (snowflakeFromDate 0 ≤ snowflakeFromDate 5 ∧ dateFromSnowflake (snowflakeFromDate 0) = 0) :=
  ⟨by decide,
    (snowflakeFromDate_monotone_and_roundtrip 0 5).1 (by decide),
    (snowflakeFromDate_monotone_and_roundtrip 0 5).2⟩

theorem fetchGithubPaginatedAux_notFound (pages : Nat → GhPage) (k : Nat)
    (hfull : ∀ i, 1 ≤ i → i < k → ∃ batch, pages i = .items batch ∧ batch.length = 100)
    (h404 : pages k = .notFound) :
    ∀ fuel page acc, 1 ≤ page → page ≤ k → k + 1 - page ≤ fuel →
      fetchGithubPaginatedAux pages fuel page acc = some none := by
  intro fuel
  induction fuel with
  | zero => intro page acc h1 h2 h3; omega
  | succ f ih =>
    intro page acc h1 h2 h3
    by_cases hp : page = k
    · subst hp
      simp [fetchGithubPaginatedAux, h404]
    · obtain ⟨batch, hb, hlen⟩ := hfull page h1 (by omega)
      simp only [fetchGithubPaginatedAux, hb]
      rw [if_neg (by omega)]
      exact ih (page + 1) (acc ++ batch) (by omega) (by omega) (by omega)

/-- C10: if every page before page k is a full 100-item batch and page k
answers 404, the whole paginated listing returns the not-found sentinel,
discarding every item collected from the earlier pages. -/
theorem fetchGithubPaginated_404_discards (pages : Nat → GhPage) (k fuel : Nat)
    (hk : 1 ≤ k) (hfuel : k ≤ fuel)
    (hfull : ∀ i, 1 ≤ i → i < k → ∃ batch, pages i = .items batch ∧ batch.length = 100)
    (h404 : pages k = .notFound) :
    fetchGithubPaginated pages fuel = some none :=
  fetchGithubPaginatedAux_notFound pages k hfull h404 fuel 1 [] le_rfl hk (by omega)

/-- A concrete endpoint whose first page is full and whose second page is 404. -/
def pagesW : Nat → GhPage :=
  fun n => if n = 1 then .items (List.replicate 100 ⟨"o/r", "o", 0, 0, 0⟩) else .notFound

/-- Witness for C10: one full page followed by a 404 yields the sentinel. -/
theorem fetchGithubPaginated_404_witness :
    pagesW 2 = GhPage.notFound ∧ fetchGithubPaginated pagesW 2 = some none :=
  ⟨rfl,
    fetchGithubPaginated_404_discards pagesW 2 2 (by decide) (by decide)
      (fun i h1 h2 => by
        have hi : i = 1 := by omega
        subst hi
        exact ⟨List.replicate 100 ⟨"o/r", "o", 0, 0, 0⟩, rfl, by simp⟩)
      rfl⟩

/-! Claims about load_existing_entries. -/

/-- The header lacks one of the three key columns the loader reads. -/
def badHeader (header : List String) : Prop :=
  "date" ∉ header ∨ "package" ∉ header ∨ "source" ∉ header

instance (header : List String) : Decidable (badHeader header) := by
  unfold badHeader
  infer_instance

theorem fieldIndex_eq_none_iff (header : List String) (field : String) :
    fieldIndex header field = none ↔ field ∉ header := by
  induction header with
  | nil => simp [fieldIndex]
  | cons h t ih =>
    by_cases hh : h = field
    · subst hh
      simp [fieldIndex]
    · rw [fieldIndex, if_neg hh]
      constructor
      · intro hmap hmem
        have hnone : fieldIndex t field = none := by
          cases hft : fieldIndex t field with
          | none => rfl
          | some i =>
            rw [hft] at hmap
            exact Option.noConfusion hmap
        have hnt : field ∉ t := ih.1 hnone
        rcases List.mem_cons.1 hmem with he | ht2
        · exact hh he.symm
        · exact hnt ht2
      · intro hall
        have hnt : field ∉ t := fun ht2 => hall (List.mem_cons.2 (Or.inr ht2))
        rw [ih.2 hnt]
        rfl

theorem dictGet_error_iff (header row : List String) (field : String) :
    dictGet header row field = .error () ↔ field ∉ header := by
  unfold dictGet
  cases hfi : fieldIndex header field with
  | none =>
    constructor
    · intro _
      exact (fieldIndex_eq_none_iff header field).1 hfi
    · intro _
      rfl
  | some i =>
    constructor
    · intro hcontra
      exact Except.noConfusion hcontra
    · intro hmem
      exfalso
      have hn := (fieldIndex_eq_none_iff header field).2 hmem
      rw [hfi] at hn
      exact Option.noConfusion hn

theorem dictGet_ok_of_mem (header row : List String) (field : String) (h : field ∈ header) :
    ∃ v, dictGet header row field = .ok v := by
  unfold dictGet
  cases hfi : fieldIndex header field with
  | none =>
    exact absurd ((fieldIndex_eq_none_iff header field).1 hfi) (by simp [h])
  | some i =>
    exact ⟨row.get? i, rfl⟩

theorem loadRow_error_iff (header : List String) (entries : List CsvTriple) (row : List String) :
    (∃ u, loadRow header entries row = .error u) ↔ (row ≠ [] ∧ badHeader header) := by
  by_cases hrow : row = []
  · simp [loadRow, hrow]
  · simp only [loadRow, if_neg hrow, ne_eq, hrow, not_false_iff, true_and]
    by_cases hd : "date" ∈ header
    · obtain ⟨v1, hv1⟩ := dictGet_ok_of_mem header row "date" hd
      simp only [hv1]
      by_cases hp : "package" ∈ header
      · obtain ⟨v2, hv2⟩ := dictGet_ok_of_mem header row "package" hp
        simp only [hv2]
        by_cases hs : "source" ∈ header
        · obtain ⟨v3, hv3⟩ := dictGet_ok_of_mem header row "source" hs
          simp only [hv3]
          simp [badHeader, hd, hp, hs]
        · have he : dictGet header row "source" = .error () := (dictGet_error_iff _ _ _).2 hs
          simp only [he]
          simp [badHeader, hs]
      · have he : dictGet header row "package" = .error () := (dictGet_error_iff _ _ _).2 hp
        simp only [he]
        simp [badHeader, hp]
    · have he : dictGet header row "date" = .error () := (dictGet_error_iff _ _ _).2 hd
      simp only [he]
      simp [badHeader, hd]

theorem loadRows_error_iff (header : List String) (rows : List (List String)) :
    ∀ acc, (∃ u, loadRows header acc rows = .error u) ↔
      (badHeader header ∧ ∃ row ∈ rows, row ≠ []) := by
  induction rows with
  | nil =>
    intro acc
    simp [loadRows]
  | cons row0 rest ih =>
    intro acc
    unfold loadRows
    cases hlr : loadRow header acc row0 with
    | error u =>
      simp only [hlr]
      have h1 : row0 ≠ [] ∧ badHeader header := (loadRow_error_iff header acc row0).1 ⟨u, hlr⟩
      constructor
      · intro _
        exact ⟨h1.2, row0, List.mem_cons_self _ _, h1.1⟩
      · intro _
        exact ⟨u, by trivial⟩
    | ok acc2 =>
      simp only [hlr]
      rw [ih acc2]
      have h2 : ¬(row0 ≠ [] ∧ badHeader header) := by
        intro hcon
        obtain ⟨u, hu⟩ := (loadRow_error_iff header acc row0).2 hcon
        rw [hlr] at hu
        exact Except.noConfusion hu
      constructor
      · rintro ⟨hb, row1, hmem, hne⟩
        exact ⟨hb, row1, List.mem_cons_of_mem _ hmem, hne⟩
      · rintro ⟨hb, row1, hmem, hne⟩
        rcases List.mem_cons.1 hmem with he | hm
        · subst he
          exact absurd ⟨hne, hb⟩ h2
        · exact ⟨hb, row1, hm, hne⟩

/-- C9 counterexample: a file with the correct header and one malformed data
row (a single cell instead of four) loads successfully, yielding an entry with
restval placeholders, instead of failing on the corrupted row. -/
theorem loadExistingEntries_malformed_row_ok :
    loadExistingEntries
        (some [["date", "package", "source", "downloads"], ["2024-01-01"]])
      = .ok [(some "2024-01-01", none, none)] := by
  rfl

/-- C9 amended: loading a missing store succeeds with the empty set, and
loading an existing store raises (a KeyError, there is no dedicated
StoreUnreadable error) exactly when the file has at least one non-blank data
row and its header lacks one of the date, package, source columns; malformed
data rows under a correct header are accepted with None placeholders rather
than raising. -/
theorem loadExistingEntries_error_characterization :
    loadExistingEntries none = .ok [] ∧
    ∀ header rows,
      (∃ u, loadExistingEntries (some (header :: rows)) = .error u) ↔
        (badHeader header ∧ ∃ row ∈ rows, row ≠ []) := by
  constructor
  · rfl
  · intro header rows
    unfold loadExistingEntries
    exact loadRows_error_iff header rows []

/-! Claims about the npm adapter and failure isolation. -/

/-- A baseline response set: every source answers with nothing. -/
def emptyResponses : Responses where
  pypi := fun _ => .ok []
  npm := fun _ _ => .ok []
  viewerLogin := none
  ghUserRepos := none
  ghOrgRepos := fun _ => none
  ghUserOwnedRepos := fun _ => none
  ghRepoByName := fun _ => .error "not fetched"
  discordToken := false
  discordGuild := fun _ => .error ()
  discordChannels := fun _ => .error ()
  discordMessages := fun _ _ => []

/-- Responses whose npm answer holds two prior days (with today = 20000,
yesterday = 19999 absent, days 19998 and 19995 present). -/
def respC4 : Responses :=
  { emptyResponses with npm := fun _ _ => .ok [⟨19998, 42⟩, ⟨19995, 7⟩] }

/-- C4 counterexample: the npm adapter does not request a single day (its
requested range spans 365 days), and when yesterday is absent it returns every
entry of the response, not only the most recent prior day with data. -/
theorem fetchNpmDownloads_not_point_in_time :
    (npmRange 20000).1 ≠ (npmRange 20000).2 ∧
      fetchNpmDownloads respC4 20000 "p" = [(19998, 42), (19995, 7)] ∧
      fetchNpmDownloads respC4 20000 "p" ≠ [(19998, 42)] := by
  refine ⟨by decide, rfl, by decide⟩

/-- Responses for the C4 scenario: the npm range response has a single entry
dated two days before today, value 42; everything else is empty. -/
def npmScenarioResponses (today : Int) : Responses :=
  { emptyResponses with
    npm := fun _ rng => if rng = npmRange today then .ok [⟨today - 2, 42⟩] else .ok [] }

/-- C4 amended: the npm adapter requests the 365-day range ending yesterday
and returns every entry of the response (deduplication happens downstream); in
particular, with an empty store and an upstream whose only entry is dated two
days prior with value 42, exactly one record is appended, dated two days
prior, with value 42. -/
theorem fetchNpmDownloads_range_and_scenario :
    (∀ (r : Responses) (today : Int) (pkg : String) (es : List NpmEntry),
        r.npm pkg (npmRange today) = .ok es →
        fetchNpmDownloads r today pkg = es.map fun e => (e.day, e.downloads)) ∧
      ∀ today : Int,
        mainRun ⟨[], ["p"], [], [], []⟩ (npmScenarioResponses today) today [] =
          [⟨today - 2, "p", "npm", 42⟩] := by
  constructor
  · intro r today pkg es h
    unfold fetchNpmDownloads
    rw [h]
  · intro today
    have hnpm : (npmScenarioResponses today).npm "p" (npmRange today) = .ok [⟨today - 2, 42⟩] := by
      show (if npmRange today = npmRange today then _ else _) = _
      rw [if_pos rfl]
    have h2 : processNpm (npmScenarioResponses today) [] today ["p"]
        = [⟨today - 2, "p", "npm", 42⟩] := by
      unfold processNpm fetchNpmDownloads
      simp only [List.flatMap_cons, List.flatMap_nil, List.append_nil]
      rw [hnpm]
      simp
    show processPypi _ [] [] ++ processNpm _ [] today ["p"] ++
        processGithub _ [] [] [] today ++ processDiscord _ [] today [] = _
    rw [h2]
    rfl

/-- Witness for C4 amended at today = 100. -/
theorem fetchNpmDownloads_range_witness :
    (npmScenarioResponses 100).npm "p" (npmRange 100) = .ok [⟨98, 42⟩] ∧
      fetchNpmDownloads (npmScenarioResponses 100) 100 "p" = [(98, 42)] := by
  have h : (npmScenarioResponses 100).npm "p" (npmRange 100) = .ok [⟨98, 42⟩] := by rfl
  exact ⟨h, by
    have h2 := fetchNpmDownloads_range_and_scenario.1 (npmScenarioResponses 100) 100 "p" [⟨98, 42⟩] h
    simpa using h2⟩

/-- The given responses with the pypi answer for one package replaced by the
empty success. -/
def withPypiOk (r : Responses) (pkg : String) : Responses :=
  { r with pypi := fun q => if q = pkg then .ok [] else r.pypi q }

/-- C5: a transport error on one pypi target makes that adapter invocation
yield the empty record list, and the whole run produces exactly what it would
produce had that target answered successfully with no data: every other
target's records are still merged and persisted, and no adapter error aborts
the run. -/
theorem mainRun_isolates_target_failure (cfg : Config) (r : Responses) (today : Int)
    (ex : List DKey) (pkg : String) (e : String) (h : r.pypi pkg = .error e) :
    fetchPypiDownloads (r.pypi pkg) = [] ∧
      mainRun cfg r today ex = mainRun cfg (withPypiOk r pkg) today ex := by
  constructor
  · rw [h]
    rfl
  · unfold mainRun
    have hp : processPypi r ex cfg.pypi = processPypi (withPypiOk r pkg) ex cfg.pypi := by
      unfold processPypi
      apply List.flatMap_congr
      intro q _
      by_cases hqp : q = pkg
      · subst hqp
        have hq2 : (withPypiOk r q).pypi q = Except.ok [] := by
          simp [withPypiOk]
        rw [h, hq2]
        rfl
      · have hq2 : (withPypiOk r pkg).pypi q = r.pypi q := by
          simp [withPypiOk, hqp]
        rw [hq2]
    rw [hp]
    rfl

/-- Responses in which the pypi fetch for package a fails with a transport
error. -/
def respC5 : Responses :=
  { emptyResponses with pypi := fun q => if q = "a" then .error "boom" else .ok [] }

/-- Witness for C5 with packages a and b configured and the fetch for a
failing. -/
theorem mainRun_isolates_target_failure_witness :
    respC5.pypi "a" = .error "boom" ∧
      (fetchPypiDownloads (respC5.pypi "a") = [] ∧
        mainRun ⟨["a", "b"], [], [], [], []⟩ respC5 0 [] =
          mainRun ⟨["a", "b"], [], [], [], []⟩ (withPypiOk respC5 "a") 0 []) :=
  ⟨rfl, mainRun_isolates_target_failure ⟨["a", "b"], [], [], [], []⟩ respC5 0 [] "a" "boom" rfl⟩

/-! Claims about key uniqueness and the merge step. -/

/-- Responses whose pypi answer has one with_mirrors data point. -/
def respDup : Responses :=
  { emptyResponses with pypi := fun _ => .ok [⟨"with_mirrors", 0, 1⟩] }

/-- A configuration listing the same pypi package twice. -/
def cfgDup : Config := ⟨["a", "a"], [], [], [], []⟩

/-- C2 counterexample: with the same package configured twice and an empty
store, the second fetched record with the key (0, a, pypi) is accepted again
rather than rejected, so two records with an identical key are appended in one
run. -/
theorem mainRun_accepts_duplicate_key :
    mainRun cfgDup respDup 0 [] = [⟨0, "a", "pypi", 1⟩, ⟨0, "a", "pypi", 1⟩] := by
  rfl

/-- C1 counterexample: starting from the empty store, whose key triples are
trivially all distinct, one run with a package configured twice appends two
records with the same key, so the store after the run violates uniqueness. -/
theorem runStore_violates_uniqueness :
    ¬ (storeKeys (runStore cfgDup respDup 0 [])).Nodup := by
  decide

/-- C2 amended: during a run the Coordinator accepts a fetched record iff its
key is absent from the key set loaded at startup; accepted records go only
into the pending-append batch and are never added back into the in-memory key
set, so a second fetched record with the same key later in the same run is
accepted again rather than rejected. -/
theorem mainRun_filters_on_loaded_keys (cfg : Config) (r : Responses) (today : Int)
    (ex : List DKey) :
    mainRun cfg r today ex =
      (fetchedRows cfg r today ex).filter fun row => decide (rowKey row ∉ ex) :=
  mainRun_eq_filter cfg r today ex

/-- C1 amended: records whose key already exists in the store at load time are
discarded, never appended or overwritten; hence, provided the records accepted
within each run have pairwise distinct keys (the code does not deduplicate
inside a run), every store in the sequence keeps all key triples distinct. -/
theorem runSeq_preserves_uniqueness (runs : List (Config × Responses × Int)) (store : List Row)
    (h0 : (storeKeys store).Nodup)
    (h : ∀ i (hi : i < runs.length),
        ((mainRun (runs.get ⟨i, hi⟩).1 (runs.get ⟨i, hi⟩).2.1 (runs.get ⟨i, hi⟩).2.2
          (storeKeys (runSeq (runs.take i) store))).map rowKey).Nodup) :
    (storeKeys (runSeq runs store)).Nodup := by
  induction runs generalizing store with
  | nil => exact h0
  | cons run rest ih =>
    show (storeKeys (runSeq rest (runStore run.1 run.2.1 run.2.2 store))).Nodup
    apply ih (runStore run.1 run.2.1 run.2.2 store)
    · have hrun0 :
          ((mainRun run.1 run.2.1 run.2.2 (storeKeys store)).map rowKey).Nodup := h 0 (by simp)
      show (storeKeys (store ++ mainRun run.1 run.2.1 run.2.2 (storeKeys store))).Nodup
      unfold storeKeys
      rw [List.map_append, List.nodup_append]
      refine ⟨h0, hrun0, ?_⟩
      intro k hk hk2
      rcases List.mem_map.1 hk2 with ⟨row, hrow, hkey⟩
      have hnot : rowKey row ∉ storeKeys store := (mem_mainRun.1 hrow).2
      rw [hkey] at hnot
      exact hnot hk
    · intro i hi
      have hstep := h (i + 1) (by simpa using Nat.succ_lt_succ hi)
      simpa using hstep

/-- Responses for the uniqueness witness: one pypi data point. -/
def respW : Responses :=
  { emptyResponses with pypi := fun _ => .ok [⟨"with_mirrors", 3, 9⟩] }

/-- A single-run sequence for the uniqueness witness. -/
def runW : Config × Responses × Int := (⟨["w"], [], [], [], []⟩, respW, 0)

/-- Witness for C1 amended: one run on one package from the empty store keeps
the store keys distinct. -/
theorem runSeq_preserves_uniqueness_witness :
    (storeKeys ([] : List Row)).Nodup ∧
      (storeKeys (runSeq [runW] [])).Nodup :=
  ⟨by decide,
    runSeq_preserves_uniqueness [runW] [] (by decide)
      (fun i hi => by
        have hlen : [runW].length = 1 := rfl
        have h0 : i = 0 := by omega
        subst h0
        show (List.map rowKey
          (mainRun runW.1 runW.2.1 runW.2.2 (storeKeys (runSeq (List.take 0 [runW]) [])))).Nodup
        decide)⟩

/-! Lemmas about the Discord backfill bookkeeping. -/

theorem mem_daysNeeded {existing : List DKey} {name : String} {today : Int} {b : Nat} {d : Int} :
    d ∈ daysNeeded existing name today b ↔
      (today - (b : Int) ≤ d ∧ d < today ∧ (d, name, "discord_messages") ∉ existing) := by
  unfold daysNeeded
  rw [List.mem_filterMap]
  constructor
  · rintro ⟨i, hi, hopt⟩
    rw [List.mem_range] at hi
    have hib : (i : Int) < (b : Int) := by exact_mod_cast hi
    have hi0 : (0 : Int) ≤ (i : Int) := Int.ofNat_nonneg i
    dsimp only at hopt
    by_cases h1 : today ≤ today - (b : Int) + (i : Int)
    · rw [if_pos h1] at hopt
      exact absurd hopt (by simp)
    · rw [if_neg h1] at hopt
      by_cases h2 : ((today - (b : Int) + (i : Int), name, "discord_messages") : DKey) ∈ existing
      · rw [if_pos h2] at hopt
        exact absurd hopt (by simp)
      · rw [if_neg h2] at hopt
        have hd : today - (b : Int) + (i : Int) = d := Option.some.inj hopt
        subst hd
        exact ⟨by omega, by omega, h2⟩
  · rintro ⟨hlb, hub, hmem⟩
    refine ⟨(d - (today - (b : Int))).toNat, ?_, ?_⟩
    · rw [List.mem_range]
      omega
    · dsimp only
      have hday : today - (b : Int) + (((d - (today - (b : Int))).toNat : Nat) : Int) = d := by
        omega
      rw [hday, if_neg (by omega), if_neg hmem]

theorem fst_bumpCount {m : List (Int × Int)} {e : Int} {x1 : Int}
    (h : x1 ∈ (bumpCount m e).map Prod.fst) : x1 = e ∨ x1 ∈ m.map Prod.fst := by
  unfold bumpCount at h
  split_ifs at h with hany
  · right
    rcases List.mem_map.1 h with ⟨p, hp, hpx⟩
    rcases List.mem_map.1 hp with ⟨q, hq, hqp⟩
    by_cases hqe : q.1 = e
    · rw [if_pos hqe] at hqp
      rw [← hqp] at hpx
      exact List.mem_map.2 ⟨q, hq, by rw [← hpx]⟩
    · rw [if_neg hqe] at hqp
      rw [← hqp] at hpx
      exact List.mem_map.2 ⟨q, hq, hpx⟩
  · rw [List.map_append] at h
    rcases List.mem_append.1 h with hm | he
    · exact Or.inr hm
    · left
      simpa using he

theorem fst_bumpCount_preserve {m : List (Int × Int)} {e d : Int} (hne : e ≠ d)
    (h : d ∉ m.map Prod.fst) : d ∉ (bumpCount m e).map Prod.fst := by
  intro hc
  rcases fst_bumpCount hc with h1 | h2
  · exact hne h1.symm
  · exact h h2

theorem fst_bucketMsg {needed : List Int} {acc : List (Int × Int)} {mid : Int} {x1 : Int}
    (h : x1 ∈ (bucketMsg needed acc mid).map Prod.fst) :
    x1 ∈ needed ∨ x1 ∈ acc.map Prod.fst := by
  unfold bucketMsg at h
  split_ifs at h with hd
  · rcases fst_bumpCount h with h1 | h2
    · left
      rw [h1]
      exact hd
    · exact Or.inr h2
  · exact Or.inr h

theorem fst_msgsFold {needed : List Int} (mids : List Int) :
    ∀ (acc : List (Int × Int)) (x1 : Int),
      x1 ∈ (mids.foldl (bucketMsg needed) acc).map Prod.fst →
      x1 ∈ needed ∨ x1 ∈ acc.map Prod.fst := by
  induction mids with
  | nil =>
    intro acc x1 h
    exact Or.inr h
  | cons mid rest ih =>
    intro acc x1 h
    rcases ih (bucketMsg needed acc mid) x1 h with h1 | h2
    · exact Or.inl h1
    · exact fst_bucketMsg h2

theorem fst_bucketChannel {needed : List Int} {msgs : Int → List Int} {acc : List (Int × Int)}
    {ch : Channel} {x1 : Int} (h : x1 ∈ (bucketChannel needed msgs acc ch).map Prod.fst) :
    x1 ∈ needed ∨ x1 ∈ acc.map Prod.fst := by
  unfold bucketChannel at h
  split_ifs at h with htype
  · exact fst_msgsFold _ acc x1 h
  · exact Or.inr h

theorem fst_countMessages {needed : List Int} {msgs : Int → List Int}
    (channels : List Channel) :
    ∀ (acc : List (Int × Int)) (x1 : Int),
      x1 ∈ (channels.foldl (bucketChannel needed msgs) acc).map Prod.fst →
      x1 ∈ needed ∨ x1 ∈ acc.map Prod.fst := by
  induction channels with
  | nil =>
    intro acc x1 h
    exact Or.inr h
  | cons ch rest ih =>
    intro acc x1 h
    rcases ih (bucketChannel needed msgs acc ch) x1 h with h1 | h2
    · exact Or.inl h1
    · exact fst_bucketChannel h2

theorem fst_countMessages_subset {needed : List Int} {msgs : Int → List Int}
    {channels : List Channel} {x1 : Int}
    (h : x1 ∈ (countMessages needed msgs channels).map Prod.fst) : x1 ∈ needed := by
  rcases fst_countMessages channels [] x1 h with h1 | h2
  · exact h1
  · simp at h2

theorem fillZeros_mono {needed : List Int} :
    ∀ {counts : List (Int × Int)} {x : Int × Int}, x ∈ counts → x ∈ fillZeros needed counts := by
  induction needed with
  | nil =>
    intro counts x h
    exact h
  | cons e rest ih =>
    intro counts x h
    unfold fillZeros
    simp only [List.foldl_cons]
    apply ih
    split_ifs with hany
    · exact h
    · exact List.mem_append_left _ h

theorem fst_fillZeros {x1 : Int} :
    ∀ (needed : List Int) (counts : List (Int × Int)),
      x1 ∈ (fillZeros needed counts).map Prod.fst →
      x1 ∈ needed ∨ x1 ∈ counts.map Prod.fst := by
  intro needed
  induction needed with
  | nil =>
    intro counts h
    exact Or.inr h
  | cons e rest ih =>
    intro counts h
    unfold fillZeros at h
    simp only [List.foldl_cons] at h
    rcases ih _ h with h1 | h2
    · exact Or.inl (List.mem_cons_of_mem _ h1)
    · split_ifs at h2 with hany
      · exact Or.inr h2
      · rw [List.map_append] at h2
        rcases List.mem_append.1 h2 with hm | he
        · exact Or.inr hm
        · left
          simp at he
          rw [he]
          exact List.mem_cons_self _ _

theorem exists_mem_fillZeros {d : Int} :
    ∀ (needed : List Int) (counts : List (Int × Int)), d ∈ needed →
      ∃ c, (d, c) ∈ fillZeros needed counts := by
  intro needed
  induction needed with
  | nil =>
    intro counts h
    exact absurd h (List.not_mem_nil d)
  | cons e rest ih =>
    intro counts hd
    unfold fillZeros
    simp only [List.foldl_cons]
    by_cases hde : d ∈ rest
    · exact ih _ hde
    · have hdee : d = e := by
        rcases List.mem_cons.1 hd with h1 | h2
        · exact h1
        · exact absurd h2 hde
      subst hdee
      by_cases hany : counts.any fun p => p.1 = d
      · rw [if_pos hany]
        rcases List.any_eq_true.1 hany with ⟨p, hp, hpd⟩
        refine ⟨p.2, fillZeros_mono ?_⟩
        have hpd2 : p.1 = d := by simpa using hpd
        rw [← hpd2]
        exact hp
      · rw [if_neg hany]
        exact ⟨0, fillZeros_mono (List.mem_append_right _ (List.mem_cons_self _ _))⟩

theorem fillZeros_zero_of_absent {d : Int} :
    ∀ (needed : List Int) (counts : List (Int × Int)), d ∈ needed →
      d ∉ counts.map Prod.fst → (d, 0) ∈ fillZeros needed counts := by
  intro needed
  induction needed with
  | nil =>
    intro counts h _
    exact absurd h (List.not_mem_nil d)
  | cons e rest ih =>
    intro counts hd habs
    unfold fillZeros
    simp only [List.foldl_cons]
    by_cases hde : d = e
    · subst hde
      have hany : ¬ counts.any fun p => p.1 = d := by
        intro hc
        rcases List.any_eq_true.1 hc with ⟨p, hp, hpd⟩
        have hpd2 : p.1 = d := by simpa using hpd
        exact habs (List.mem_map.2 ⟨p, hp, hpd2⟩)
      rw [if_neg hany]
      exact fillZeros_mono (List.mem_append_right _ (List.mem_cons_self _ _))
    · have hdrest : d ∈ rest := by
        rcases List.mem_cons.1 hd with h1 | h2
        · exact absurd h1 hde
        · exact h2
      split_ifs with hany
      · exact ih _ hdrest habs
      · apply ih _ hdrest
        rw [List.map_append]
        intro hc
        rcases List.mem_append.1 hc with hm | hee
        · exact habs hm
        · simp at hee
          exact hde hee

theorem countMessages_no_bucket {needed : List Int} {msgs : Int → List Int}
    {channels : List Channel} {d : Int}
    (h : ∀ ch ∈ channels, (ch.type = 0 ∨ ch.type = 5) →
        ∀ mid ∈ msgs ch.id, dateFromSnowflake mid ≠ d) :
    d ∉ (countMessages needed msgs channels).map Prod.fst := by
  have hmsg : ∀ (mids : List Int), (∀ mid ∈ mids, dateFromSnowflake mid ≠ d) →
      ∀ (acc : List (Int × Int)), d ∉ acc.map Prod.fst →
        d ∉ (mids.foldl (bucketMsg needed) acc).map Prod.fst := by
    intro mids
    induction mids with
    | nil =>
      intro _ acc hacc
      exact hacc
    | cons mid rest ih =>
      intro hne acc hacc
      rw [List.foldl_cons]
      apply ih (fun m hm => hne m (List.mem_cons_of_mem _ hm))
      unfold bucketMsg
      split_ifs with hd2
      · exact fst_bumpCount_preserve (hne mid (List.mem_cons_self _ _)) hacc
      · exact hacc
  have hch : ∀ (chs : List Channel), (∀ ch ∈ chs, (ch.type = 0 ∨ ch.type = 5) →
      ∀ mid ∈ msgs ch.id, dateFromSnowflake mid ≠ d) →
      ∀ (acc : List (Int × Int)), d ∉ acc.map Prod.fst →
        d ∉ (chs.foldl (bucketChannel needed msgs) acc).map Prod.fst := by
    intro chs
    induction chs with
    | nil =>
      intro _ acc hacc
      exact hacc
    | cons ch rest ih =>
      intro hne acc hacc
      rw [List.foldl_cons]
      apply ih (fun c hc => hne c (List.mem_cons_of_mem _ hc))
      unfold bucketChannel
      split_ifs with htype
      · exact hmsg _ (hne ch (List.mem_cons_self _ _) htype) acc hacc
      · exact hacc
  exact hch channels h [] (by simp)

theorem fetchDiscordStats_of_parts {r : Responses} {g : String} {gi : GuildInfo}
    (htok : r.discordToken = true) (hg : r.discordGuild g = .ok gi)
    (e : List DKey) (today : Int) (b : Nat) :
    fetchDiscordStats r g e today b =
      some ⟨gi.nameOpt.getD g, gi.memberCount.getD 0,
        discordMessagesByDate r g e today b (gi.nameOpt.getD g)⟩ := by
  unfold fetchDiscordStats
  rw [htok, if_neg (by simp), hg]

theorem fetchDiscordStats_eq_some {r : Responses} {g : String} {e : List DKey} {today : Int}
    {b : Nat} {res : DiscordResult} (h : fetchDiscordStats r g e today b = some res) :
    r.discordToken = true ∧ ∃ gi, r.discordGuild g = .ok gi ∧
      res = ⟨gi.nameOpt.getD g, gi.memberCount.getD 0,
        discordMessagesByDate r g e today b (gi.nameOpt.getD g)⟩ := by
  unfold fetchDiscordStats at h
  by_cases htok : r.discordToken = false
  · rw [if_pos htok] at h
    exact absurd h (by simp)
  · have htok2 : r.discordToken = true := by
      revert htok
      cases r.discordToken <;> simp
    refine ⟨htok2, ?_⟩
    rw [if_neg htok] at h
    cases hg : r.discordGuild g with
    | error u =>
      rw [hg] at h
      exact absurd h (by simp)
    | ok gi =>
      rw [hg] at h
      exact ⟨gi, rfl, (Option.some.inj h).symm⟩

theorem discordMessagesByDate_empty {r : Responses} {g : String} {e : List DKey} {today : Int}
    {b : Nat} {name : String} (h : daysNeeded e name today b = []) :
    discordMessagesByDate r g e today b name = some [] := by
  dsimp only [discordMessagesByDate]
  rw [if_pos h]

theorem discordMessagesByDate_chError {r : Responses} {g : String} {e : List DKey} {today : Int}
    {b : Nat} {name : String} {u : Unit} (hne : daysNeeded e name today b ≠ [])
    (hch : r.discordChannels g = .error u) :
    discordMessagesByDate r g e today b name = none := by
  dsimp only [discordMessagesByDate]
  rw [if_neg hne, hch]

theorem discordMessagesByDate_chOk {r : Responses} {g : String} {e : List DKey} {today : Int}
    {b : Nat} {name : String} {chs : List Channel} (hne : daysNeeded e name today b ≠ [])
    (hch : r.discordChannels g = .ok chs) :
    discordMessagesByDate r g e today b name =
      some (fillZeros (daysNeeded e name today b)
        (countMessages (daysNeeded e name today b) (r.discordMessages g) chs)) := by
  dsimp only [discordMessagesByDate]
  rw [if_neg hne, hch]

/-- C6: for a successfully fetched guild (token present, guild and channels
responses ok), every day of the backfill horizon that is missing from the
store receives a record in the run output; a missing day none of whose fetched
messages fall on it is recorded with value 0; and afterwards no day of the
horizon is missing. -/
theorem discordBackfill_complete (cfg : Config) (r : Responses) (today : Int)
    (ex : List DKey) (g : String) (gi : GuildInfo) (chs : List Channel)
    (hgcfg : g ∈ cfg.discord)
    (htok : r.discordToken = true)
    (hgld : r.discordGuild g = .ok gi)
    (hch : r.discordChannels g = .ok chs) :
    (∀ d ∈ daysNeeded ex (gi.nameOpt.getD g) today 90,
        ∃ c, (⟨d, gi.nameOpt.getD g, "discord_messages", c⟩ : Row) ∈ mainRun cfg r today ex) ∧
    (∀ d ∈ daysNeeded ex (gi.nameOpt.getD g) today 90,
        (∀ ch ∈ chs, (ch.type = 0 ∨ ch.type = 5) →
          ∀ mid ∈ r.discordMessages g ch.id, dateFromSnowflake mid ≠ d) →
        (⟨d, gi.nameOpt.getD g, "discord_messages", 0⟩ : Row) ∈ mainRun cfg r today ex) ∧
    (∀ d : Int, today - 90 ≤ d → d < today →
        (d, gi.nameOpt.getD g, "discord_messages") ∈
          ex ++ (mainRun cfg r today ex).map rowKey) := by
  have hmain : ∀ d c, (d, c) ∈ fillZeros (daysNeeded ex (gi.nameOpt.getD g) today 90)
      (countMessages (daysNeeded ex (gi.nameOpt.getD g) today 90) (r.discordMessages g) chs) →
      d ∈ daysNeeded ex (gi.nameOpt.getD g) today 90 →
      (⟨d, gi.nameOpt.getD g, "discord_messages", c⟩ : Row) ∈ mainRun cfg r today ex := by
    intro d c hdc hd
    apply mem_mainRun.2
    constructor
    · unfold fetchedRows
      apply List.mem_append_right
      apply List.mem_flatMap.2
      refine ⟨g, hgcfg, ?_⟩
      unfold fetchedDiscordGuild
      rw [fetchDiscordStats_of_parts htok hgld]
      apply List.mem_cons_of_mem
      have hneed : daysNeeded ex (gi.nameOpt.getD g) today 90 ≠ [] := List.ne_nil_of_mem hd
      rw [discordMessagesByDate_chOk hneed hch]
      exact List.mem_map.2 ⟨(d, c), List.mem_mergeSort.2 hdc, rfl⟩
    · exact (mem_daysNeeded.1 hd).2.2
  refine ⟨?_, ?_, ?_⟩
  · intro d hd
    obtain ⟨c, hc⟩ := exists_mem_fillZeros _ _ hd
    exact ⟨c, hmain d c hc hd⟩
  · intro d hd hno
    have habs := @countMessages_no_bucket (daysNeeded ex (gi.nameOpt.getD g) today 90)
      (r.discordMessages g) chs d hno
    exact hmain d 0 (fillZeros_zero_of_absent _ _ hd habs) hd
  · intro d h1 h2
    by_cases hmem : ((d, gi.nameOpt.getD g, "discord_messages") : DKey) ∈ ex
    · exact List.mem_append_left _ hmem
    · have hd : d ∈ daysNeeded ex (gi.nameOpt.getD g) today 90 := by
        apply mem_daysNeeded.2
        refine ⟨by push_cast; omega, h2, hmem⟩
      obtain ⟨c, hc⟩ := exists_mem_fillZeros _
        (countMessages (daysNeeded ex (gi.nameOpt.getD g) today 90) (r.discordMessages g) chs) hd
      have hrow := hmain d c hc hd
      exact List.mem_append_right _ (List.mem_map.2 ⟨_, hrow, rfl⟩)

/-- Responses for the backfill witness: a token, one guild, one text channel,
no messages. -/
def respC6 : Responses :=
  { emptyResponses with
    discordToken := true
    discordGuild := fun _ => .ok ⟨some "G", some 5⟩
    discordChannels := fun _ => .ok [⟨0, 7⟩] }

/-- Witness for C6 with an empty store: every needed day gets a record. -/
theorem discordBackfill_complete_witness :
    respC6.discordToken = true ∧
      ∀ d ∈ daysNeeded [] "G" 100 90,
        ∃ c, (⟨d, "G", "discord_messages", c⟩ : Row) ∈
          mainRun ⟨[], [], [], [], ["g"]⟩ respC6 100 [] :=
  ⟨rfl,
    (discordBackfill_complete ⟨[], [], [], [], ["g"]⟩ respC6 100 [] "g" ⟨some "G", some 5⟩
      [⟨0, 7⟩] (List.mem_cons_self "g" []) rfl rfl rfl).1⟩

/-- C3: ingestion is idempotent: with the upstream responses fixed, running
the ingestion again after the first run's records have been appended to the
store (and so loaded into the existing-key set) appends zero new records, for
all adapters. -/
theorem mainRun_idempotent (cfg : Config) (r : Responses) (today : Int) (store : List Row) :
    mainRun cfg r today (storeKeys (runStore cfg r today store)) = [] := by
  have hex2 : storeKeys (runStore cfg r today store)
      = storeKeys store ++ (mainRun cfg r today (storeKeys store)).map rowKey := by
    unfold runStore appendRows storeKeys
    exact List.map_append rowKey store _
  rw [hex2]
  rw [List.eq_nil_iff_forall_not_mem]
  intro row hrow
  obtain ⟨hfet, hkey⟩ := mem_mainRun.1 hrow
  have hkey1 : rowKey row ∉ storeKeys store := fun hc => hkey (List.mem_append_left _ hc)
  have hkey2 : rowKey row ∉ (mainRun cfg r today (storeKeys store)).map rowKey :=
    fun hc => hkey (List.mem_append_right _ hc)
  unfold fetchedRows at hfet
  rcases List.mem_append.1 hfet with h123 | hdisc
  · rcases List.mem_append.1 h123 with h12 | hgh
    · rcases List.mem_append.1 h12 with hpy | hnp
      · apply hkey2
        apply List.mem_map_of_mem rowKey
        apply mem_mainRun.2
        refine ⟨?_, hkey1⟩
        unfold fetchedRows
        exact List.mem_append_left _ (List.mem_append_left _ (List.mem_append_left _ hpy))
      · apply hkey2
        apply List.mem_map_of_mem rowKey
        apply mem_mainRun.2
        refine ⟨?_, hkey1⟩
        unfold fetchedRows
        exact List.mem_append_left _ (List.mem_append_left _ (List.mem_append_right _ hnp))
    · apply hkey2
      apply List.mem_map_of_mem rowKey
      apply mem_mainRun.2
      refine ⟨?_, hkey1⟩
      unfold fetchedRows
      exact List.mem_append_left _ (List.mem_append_right _ hgh)
  · rcases List.mem_flatMap.1 hdisc with ⟨g, hgcfg, hrowg⟩
    unfold fetchedDiscordGuild at hrowg
    cases hful : fetchDiscordStats r g
        (storeKeys store ++ (mainRun cfg r today (storeKeys store)).map rowKey) today 90 with
    | none =>
      rw [hful] at hrowg
      exact absurd hrowg (List.not_mem_nil row)
    | some res =>
      rw [hful] at hrowg
      obtain ⟨htok, gi, hgld, hres⟩ := fetchDiscordStats_eq_some hful
      subst hres
      dsimp only at hrowg
      have hful1 : fetchDiscordStats r g (storeKeys store) today 90 =
          some ⟨gi.nameOpt.getD g, gi.memberCount.getD 0,
            discordMessagesByDate r g (storeKeys store) today 90 (gi.nameOpt.getD g)⟩ :=
        fetchDiscordStats_of_parts htok hgld _ today 90
      rcases List.mem_cons.1 hrowg with hmr | hmsg
      · apply hkey2
        apply List.mem_map_of_mem rowKey
        apply mem_mainRun.2
        refine ⟨?_, hkey1⟩
        unfold fetchedRows
        apply List.mem_append_right
        apply List.mem_flatMap.2
        refine ⟨g, hgcfg, ?_⟩
        unfold fetchedDiscordGuild
        rw [hful1]
        rw [hmr]
        exact List.mem_cons_self _ _
      · by_cases hneed2 : daysNeeded
            (storeKeys store ++ (mainRun cfg r today (storeKeys store)).map rowKey)
            (gi.nameOpt.getD g) today 90 = []
        · rw [discordMessagesByDate_empty hneed2] at hmsg
          simp [sortByDay] at hmsg
        · cases hch : r.discordChannels g with
          | error u =>
            rw [discordMessagesByDate_chError hneed2 hch] at hmsg
            exact absurd hmsg (List.not_mem_nil row)
          | ok chs =>
            rw [discordMessagesByDate_chOk hneed2 hch] at hmsg
            rcases List.mem_map.1 hmsg with ⟨p, hpsort, hrowp⟩
            have hpm := List.mem_mergeSort.1 hpsort
            have hp1 : p.1 ∈ daysNeeded
                (storeKeys store ++ (mainRun cfg r today (storeKeys store)).map rowKey)
                (gi.nameOpt.getD g) today 90 := by
              rcases fst_fillZeros _ _ (List.mem_map_of_mem Prod.fst hpm) with h1 | h2
              · exact h1
              · exact fst_countMessages_subset h2
            have hkeyp : ((p.1, gi.nameOpt.getD g, "discord_messages") : DKey) ∉
                storeKeys store ++ (mainRun cfg r today (storeKeys store)).map rowKey :=
              (mem_daysNeeded.1 hp1).2.2
            have hp1n1 : p.1 ∈ daysNeeded (storeKeys store) (gi.nameOpt.getD g) today 90 := by
              have hc := mem_daysNeeded.1 hp1
              exact mem_daysNeeded.2
                ⟨hc.1, hc.2.1, fun hmem => hc.2.2 (List.mem_append_left _ hmem)⟩
            have hneed1 : daysNeeded (storeKeys store) (gi.nameOpt.getD g) today 90 ≠ [] :=
              List.ne_nil_of_mem hp1n1
            obtain ⟨c1, hc1⟩ := exists_mem_fillZeros
              (daysNeeded (storeKeys store) (gi.nameOpt.getD g) today 90)
              (countMessages (daysNeeded (storeKeys store) (gi.nameOpt.getD g) today 90)
                (r.discordMessages g) chs) hp1n1
            have hrow1 : (⟨p.1, gi.nameOpt.getD g, "discord_messages", c1⟩ : Row) ∈
                mainRun cfg r today (storeKeys store) := by
              apply mem_mainRun.2
              constructor
              · unfold fetchedRows
                apply List.mem_append_right
                apply List.mem_flatMap.2
                refine ⟨g, hgcfg, ?_⟩
                unfold fetchedDiscordGuild
                rw [hful1]
                apply List.mem_cons_of_mem
                rw [discordMessagesByDate_chOk hneed1 hch]
                exact List.mem_map.2 ⟨(p.1, c1), List.mem_mergeSort.2 hc1, rfl⟩
              · intro hc
                exact hkeyp (List.mem_append_left _ hc)
            exact hkeyp (List.mem_append_right _ (List.mem_map_of_mem rowKey hrow1))
